import Mathlib

/-!
Verification of the response cache and response-generation pipeline of the
AI interview bot (src/modules/cache-manager.js and the LLMClient class of
src/modules/lip-sync-controller.js).

Modelling conventions.  JavaScript strings are sequences of UTF-16 code
units; every string manipulated by the verified code paths is ASCII, so a
JS string is modelled as a Lean `String` and the JS per-character
primitives are written out explicitly over `String.data`.  A JS `Map` is
modelled as an association list in insertion order (oldest first), which
is exactly the iteration order of a JS `Map`.  Numeric sampling
temperatures are modelled as exact rationals; the JS code only ever adds
the literal 0.15 to the literal 0.8 at most twice, and no claim depends
on double rounding at those magnitudes.  The threshold comparison
`overlap > userWords.length * 0.7` is modelled in exact IEEE-754 double
semantics: the double nearest 0.7 is 6305039478318694 / 2^53, the product
with the word count is rounded to nearest, ties to even (`roundedProd07`
below returns 2^53 times that double), and the comparison against the
integer `overlap` is carried out on the 2^53-scaled integers.  This is
bit-exact for every word count below 2^53 (the JS string length bound
keeps word counts far below that, and no product can overflow to
infinity there); notably `90 * 0.7` rounds down to 62.99999999999999, so
overlap 63 on a 90-word utterance is rejected, unlike under the exact
rational bound.
-/

/-- The character code 39 (apostrophe), used when building string literals. -/
def apC : Char := Char.ofNat 39

/-- Apostrophe as a one-character string. -/
def ap : String := apC.toString

/-- Whitespace test backing the JS `\s` class and `String.prototype.trim`
(all whitespace appearing in this codebase is ASCII). -/
def isWs (c : Char) : Bool := c.isWhitespace

/-- Drop leading whitespace characters. -/
def dropLeadingWs (l : List Char) : List Char := l.dropWhile isWs

/-- Drop trailing whitespace characters. -/
def dropTrailingWs (l : List Char) : List Char := (l.reverse.dropWhile isWs).reverse

/-- JS `String.prototype.trim`. -/
def jsTrim (s : String) : String := ⟨dropTrailingWs (dropLeadingWs s.data)⟩

/-- JS `String.prototype.toLowerCase` (ASCII case folding). -/
def jsToLower (s : String) : String := ⟨s.data.map Char.toLower⟩

/-- Contiguous-substring test on character lists. -/
def isInfixOfL (needle : List Char) : List Char → Bool
  | [] => needle.isEmpty
  | x :: xs => needle.isPrefixOf (x :: xs) || isInfixOfL needle xs

/-- JS `String.prototype.includes`: substring containment. -/
def containsSub (hay needle : String) : Bool := isInfixOfL needle.data hay.data

/-- Helper of `jsSplit`: split a character list at every occurrence of `c`,
keeping empty segments, accumulating the current segment reversed. -/
def splitOnCharAux (c : Char) : List Char → List Char → List (List Char)
  | [], acc => [acc.reverse]
  | x :: xs, acc =>
    if x = c then acc.reverse :: splitOnCharAux c xs [] else splitOnCharAux c xs (x :: acc)

/-- JS `String.prototype.split` with a one-character separator: splits at
every occurrence, producing empty strings between adjacent separators, and
yields the singleton list of the input when the separator never occurs. -/
def jsSplit (s : String) (c : Char) : List String :=
  (splitOnCharAux c s.data []).map List.asString

/-- JS `String.prototype.lastIndexOf` for a single character, returning
`none` where JS returns -1. -/
def lastIndexOf (l : List Char) (c : Char) : Option Nat :=
  if c ∈ l then some (l.length - 1 - l.reverse.indexOf c) else none

/-! ## Cache manager (src/modules/cache-manager.js) -/

/-- State of a `CacheManager` instance.  The `Map` field `cache` is the
association list of (normalized key, value) entries in insertion order,
oldest first. -/
structure CacheManager where
  cache : List (String × String)
  maxSize : Nat
  hits : Nat
  misses : Nat

/-- The constructor `new CacheManager(maxSize)` (default 50). -/
def CacheManager.new (maxSize : Nat := 50) : CacheManager :=
  { cache := [], maxSize := maxSize, hits := 0, misses := 0 }

/-- The method `hash(text)`: `text.toLowerCase().trim().substring(0, 100)`. -/
def CacheManager.hash (text : String) : String :=
  ⟨(jsTrim (jsToLower text)).data.take 100⟩

/-- JS `Map.prototype.set` semantics: when the key is already present the
entry keeps its position in iteration order and only the value changes;
otherwise the new entry is appended at the end. -/
def mapSet (l : List (String × String)) (k v : String) : List (String × String) :=
  if l.any (fun p => p.1 == k) then
    l.map (fun p => if p.1 == k then (k, v) else p)
  else l ++ [(k, v)]

/-- The method `get(key)`: on a hit the entry is deleted and re-inserted at
the end (the LRU promotion) and `hits` is bumped; on a miss `misses` is
bumped and `null` (here `none`) is returned. -/
def CacheManager.get (c : CacheManager) (key : String) : Option String × CacheManager :=
  let h := CacheManager.hash key
  match c.cache.lookup h with
  | some entry =>
      (some entry,
        { c with hits := c.hits + 1,
                 cache := (c.cache.eraseP (fun p => p.1 == h)) ++ [(h, entry)] })
  | none => (none, { c with misses := c.misses + 1 })

/-- The method `set(key, value)`: when at capacity and the normalized key is
new, the first key in iteration order is deleted (`delete` of `undefined`
on an empty map is a no-op, hence `List.tail`), then `Map.set` runs. -/
def CacheManager.set (c : CacheManager) (key value : String) : CacheManager :=
  let h := CacheManager.hash key
  let cache1 :=
    if c.maxSize ≤ c.cache.length ∧ c.cache.any (fun p => p.1 == h) = false then
      c.cache.tail
    else c.cache
  { c with cache := mapSet cache1 h value }

/-- The method `has(key)`. -/
def CacheManager.has (c : CacheManager) (key : String) : Bool :=
  c.cache.any (fun p => p.1 == CacheManager.hash key)

/-- The method `clear()`. -/
def CacheManager.clear (c : CacheManager) : CacheManager :=
  { c with cache := [], hits := 0, misses := 0 }

/-- The `size` component of `getStats()` (the formatted hit-rate string is
presentation only and not modelled). -/
def CacheManager.statsSize (c : CacheManager) : Nat := c.cache.length

/-- A persisted blob under the fixed localStorage slot: either text that
`JSON.parse` plus the `Map` constructor turn back into an entry list
(JSON round-trips lists of string pairs exactly), or malformed text on
which `JSON.parse` or the `Map` constructor throws. -/
inductive Blob where
  | good : List (String × String) → Blob
  | malformed : Blob

/-- Decoding a blob: `none` models the parse throwing. -/
def decodeBlob : Blob → Option (List (String × String))
  | Blob.good l => some l
  | Blob.malformed => none

/-- The method `persist()`.  `storeOk = false` models `localStorage.setItem`
throwing (storage unavailable or quota exceeded); the exception is caught
by the try/catch, so the cache is returned unchanged either way and the
slot keeps its previous content on failure. -/
def CacheManager.persist (c : CacheManager) (storeOk : Bool) (slot : Option Blob) :
    CacheManager × Option Blob :=
  if storeOk then (c, some (Blob.good c.cache)) else (c, slot)

/-- The method `restore()`.  `storageOk = false` models `localStorage.getItem`
throwing; `slot = none` models an absent slot (falsy `data`); a malformed
blob makes `JSON.parse` throw.  Every exception is caught, leaving the
cache unchanged.  On success `new Map(entries)` inserts the entries in
order with `Map.set` semantics. -/
def CacheManager.restore (c : CacheManager) (storageOk : Bool) (slot : Option Blob) :
    CacheManager :=
  if storageOk then
    match slot with
    | some b =>
      match decodeBlob b with
      | some entries => { c with cache := entries.foldl (fun m p => mapSet m p.1 p.2) [] }
      | none => c
    | none => c
  else c

/-- Apply a sequence of `set` calls in order. -/
def CacheManager.runSets (c : CacheManager) : List (String × String) → CacheManager
  | [] => c
  | (k, v) :: rest => (c.set k v).runSets rest

/-- Keys of an entry list, in iteration order. -/
def keysOf (l : List (String × String)) : List String := l.map Prod.fst

/-! ## LLM client (LLMClient class in src/modules/lip-sync-controller.js) -/

/-- Conversation roles; the JS strings are `user` and `assistant` (the spec
calls the latter the agent role). -/
inductive Role where
  | user
  | assistant
deriving DecidableEq

/-- One entry of `conversationHistory`: `{ role, content }`. -/
structure Turn where
  role : Role
  content : String
deriving DecidableEq

/-- The denylist `badPhrases` of `validateResponse`. -/
def badPhrases : List String :=
  ["professional job interviewer", "i am a", "my name is",
   "i" ++ ap ++ "m here to", "let me introduce"]

/-- The inline overlap computation of `validateResponse`: the number of
words of the user message that are longer than 4 characters and occur
among the words of the (lowercased) response. -/
def overlapCount (response userMessage : String) : Nat :=
  let userWords := jsSplit (jsToLower userMessage) ' '
  let responseWords := jsSplit (jsToLower response) ' '
  (userWords.filter (fun w => 4 < w.length && responseWords.contains w)).length

/-- Helper of `bitLen`: the first argument is fuel, always sufficient when
it starts at the number itself. -/
def bitLenAux : Nat → Nat → Nat
  | 0, _ => 0
  | fuel + 1, n => if n = 0 then 0 else bitLenAux fuel (n / 2) + 1

/-- Number of binary digits of a natural number (0 for 0). -/
def bitLen (n : Nat) : Nat := bitLenAux n n

/-- The double significand of 0.7: the IEEE-754 double nearest 0.7 is
`sig07 / 2^53`. -/
def sig07 : Nat := 6305039478318694

/-- 2^53 times the IEEE-754 double value of `n * 0.7` as JS computes it:
the exact product of `n` (exact for n below 2^53) with the double nearest
0.7 is rounded to 53 significant bits, nearest, ties to even.  No
subnormal or infinite results arise for any word count a JS string can
produce. -/
def roundedProd07 (n : Nat) : Nat :=
  let a := n * sig07
  let L := bitLen a
  if L ≤ 53 then a
  else
    let d := L - 53
    let m := a / 2 ^ d
    let r := a % 2 ^ d
    let half := 2 ^ (d - 1)
    let mR := if half < r ∨ (r = half ∧ m % 2 = 1) then m + 1 else m
    mR * 2 ^ d

/-- The method `validateResponse(response, userMessage)`, written as the
same cascade of early returns as the source.  The float comparison
`overlap > userWords.length * 0.7` is modelled bit-exactly on 2^53-scaled
integers: `overlap * 2^53 > roundedProd07 userWords.length` (see the
header note). -/
def validateResponse (response userMessage : String) : Bool :=
  let lowerResponse := jsToLower response
  if badPhrases.any (fun phrase => containsSub lowerResponse phrase) then false
  else if response.data.contains '?' = false then false
  else if response.length < 10 ∨ 300 < response.length then false
  else if roundedProd07 (jsSplit (jsToLower userMessage) ' ').length
      < overlapCount response userMessage * 2 ^ 53
    then false
  else true

/-- The overlap-rejection criterion as the specification words it: words
longer than 4 characters shared between both texts, as a fraction of the
number of qualifying words (those longer than 4 characters) of the input,
rejecting when the fraction exceeds 0.7.  Declared only to compare the
specification sentence with the source; `validateResponse` above is the
code. -/
def specOverlapRejects (response userMessage : String) : Bool :=
  let userWords := jsSplit (jsToLower userMessage) ' '
  let responseWords := jsSplit (jsToLower response) ' '
  let qualifying := userWords.filter (fun w => 4 < w.length)
  let shared := qualifying.filter (fun w => responseWords.contains w)
  7 * qualifying.length < 10 * shared.length

/-- Role labels of the first regex of `cleanResponse`, lowercased for the
case-insensitive match. -/
def roleLabels : List String := ["interviewer:", "question:", "ask:", "response:"]

/-- Quote characters of the second and third regexes of `cleanResponse`. -/
def quoteChars : List Char := ['"', apC]

/-- The regex replace of a leading role label plus trailing whitespace,
case-insensitively, from `cleanResponse`. -/
def stripRoleLabel (l : List Char) : List Char :=
  match roleLabels.find? (fun p => p.data.isPrefixOf (l.map Char.toLower)) with
  | some p => dropLeadingWs (l.drop p.length)
  | none => l

/-- The regex replace of a leading quote character plus whitespace. -/
def stripLeadingQuote (l : List Char) : List Char :=
  match l with
  | [] => []
  | c :: rest => if c ∈ quoteChars then dropLeadingWs rest else c :: rest

/-- The regex replace of whitespace plus a trailing quote character. -/
def stripTrailingQuote (l : List Char) : List Char :=
  match l.getLast? with
  | some c => if c ∈ quoteChars then dropTrailingWs l.dropLast else l
  | none => l

/-- The removal of an incomplete trailing sentence: when the text is
nonempty and does not end in sentence-terminal punctuation, truncate at
the last full stop provided it lies past the midpoint
(`lastSentence > cleaned.length / 2` on integers is `2 * i > length`). -/
def truncateIncomplete (l : List Char) : List Char :=
  if 0 < l.length ∧
      ¬ (l.getLast? = some '.' ∨ l.getLast? = some '!' ∨ l.getLast? = some '?') then
    match lastIndexOf l '.' with
    | some i => if l.length < 2 * i then l.take (i + 1) else l
    | none => l
  else l

/-- The final step of `cleanResponse`: when the text contains a question
mark but does not end with one, truncate just after the last question
mark. -/
def truncAfterLastQ (l : List Char) : List Char :=
  if l.contains '?' = true ∧ ¬ (l.getLast? = some '?') then
    match lastIndexOf l '?' with
    | some i => l.take (i + 1)
    | none => l
  else l

/-- The method `cleanResponse(response)`: the three regex replaces, the
trim, the incomplete-sentence truncation, and the last-question-mark
truncation, in source order. -/
def cleanResponse (response : String) : String :=
  ⟨truncAfterLastQ (truncateIncomplete (dropTrailingWs (dropLeadingWs
      (stripTrailingQuote (stripLeadingQuote (stripRoleLabel response.data))))))⟩

/-- Keyword fallback of `getFallbackQuestion` for experience/worked. -/
def fallbackExperience : String :=
  "Can you tell me more about the challenges you faced in that role?"

/-- Keyword fallback for project/built. -/
def fallbackProject : String :=
  "What technologies did you use and why did you choose them?"

/-- Keyword fallback for team/collaborate. -/
def fallbackTeam : String :=
  "How do you handle disagreements within a team?"

/-- Keyword fallback for skill/learn. -/
def fallbackSkill : String :=
  "What" ++ ap ++ "s the most challenging skill you" ++ ap ++ "ve had to learn recently?"

/-- Keyword fallback for problem/solve. -/
def fallbackProblem : String :=
  "Can you walk me through your problem-solving approach?"

/-- The `genericQuestions` pool of `getFallbackQuestion`. -/
def genericQuestions : List String :=
  ["That" ++ ap ++ "s interesting. Can you elaborate on that?",
   "What made you choose that particular approach?",
   "How did that experience shape your career goals?",
   "What would you do differently if you could do it again?",
   "What did you learn from that experience?"]

/-- Every string `getFallbackQuestion` can return. -/
def fallbackPool : List String :=
  [fallbackExperience, fallbackProject, fallbackTeam, fallbackSkill, fallbackProblem]
    ++ genericQuestions

/-- The method `getFallbackQuestion(userMessage)`.  The call
`Math.floor(Math.random() * genericQuestions.length)` always lands in
`0..4`; following the design notes the random source is injected as the
parameter `r`. -/
def getFallbackQuestion (userMessage : String) (r : Fin 5) : String :=
  let lowerMsg := jsToLower userMessage
  if containsSub lowerMsg "experience" || containsSub lowerMsg "worked" then fallbackExperience
  else if containsSub lowerMsg "project" || containsSub lowerMsg "built" then fallbackProject
  else if containsSub lowerMsg "team" || containsSub lowerMsg "collaborate" then fallbackTeam
  else if containsSub lowerMsg "skill" || containsSub lowerMsg "learn" then fallbackSkill
  else if containsSub lowerMsg "problem" || containsSub lowerMsg "solve" then fallbackProblem
  else genericQuestions.getD r.1 ""

/-- The method `buildContextualPrompt(userMessage)`; `history` stands for
`this.conversationHistory` at call time, and `slice(-4)` is the last four
entries. -/
def buildContextualPrompt (history : List Turn) (userMessage : String) : String :=
  if history.length ≤ 1 then
    "Instruction: You are a Technical Interviewer for a Senior Software Engineer role. The candidate just introduced themselves: \"" ++ userMessage ++ "\".\nTask: Ask a specific technical question about their coding experience or a relevant technology.\n\nTechnical Question:"
  else
    let recentMessages := history.drop (history.length - 4)
    let conversation := recentMessages.foldl (fun acc msg =>
      match msg.role with
      | Role.user => acc ++ "Candidate: " ++ msg.content ++ "\n"
      | Role.assistant => acc ++ "Interviewer: " ++ msg.content ++ "\n") ""
    "Instruction: You are a strict Technical Interviewer. Analyze the conversation below. Based on the candidate" ++ ap ++ "s last answer, ask a follow-up TECHNICAL question to test their depth of knowledge. Avoid generic questions. Focus on \"how\" and \"why\".\n\nConversation History:\n" ++ conversation ++ "\n\nCandidate" ++ ap ++ "s Last Answer: \"" ++ userMessage ++ "\"\n\nFollow-up Technical Question:"

/-- The retry loop of `generateWithRetry`, with the generation capability
injected as `gen attempt prompt temperature` (`Except.error` models the
invocation throwing).  Besides the returned text, the model records the
trace of capability invocations as pairs (temperature passed, whether the
capability returned text rather than threw); the source performs exactly
one invocation per loop iteration.  A successful validation returns the
cleaned candidate; a validation failure raises the temperature by 0.15
before the next attempt; a thrown invocation is caught after the
temperature increment line, so it leaves the temperature unchanged. -/
def attemptLoop (gen : Nat → String → ℚ → Except Unit String)
    (prompt userMessage : String) (r : Fin 5) :
    Nat → ℚ → Nat → String × List (ℚ × Bool)
  | _, _, 0 => (getFallbackQuestion userMessage r, [])
  | attempt, temperature, Nat.succ remaining =>
    match gen attempt prompt temperature with
    | Except.error _ =>
      ((attemptLoop gen prompt userMessage r (attempt + 1) temperature remaining).1,
       (temperature, false) ::
         (attemptLoop gen prompt userMessage r (attempt + 1) temperature remaining).2)
    | Except.ok raw =>
      if validateResponse (cleanResponse (jsTrim raw)) userMessage then
        (cleanResponse (jsTrim raw), [(temperature, true)])
      else
        ((attemptLoop gen prompt userMessage r (attempt + 1) (temperature + 3 / 20) remaining).1,
         (temperature, true) ::
           (attemptLoop gen prompt userMessage r (attempt + 1) (temperature + 3 / 20) remaining).2)

/-- The method `generateWithRetry(userMessage, maxRetries)`: the loop
starts at attempt 0 with temperature 0.8, and the prompt is built from the
history as it stands when the loop runs. -/
def generateWithRetry (gen : Nat → String → ℚ → Except Unit String)
    (history : List Turn) (userMessage : String) (maxRetries : Nat) (r : Fin 5) :
    String × List (ℚ × Bool) :=
  attemptLoop gen (buildContextualPrompt history userMessage) userMessage r 0 (4 / 5) maxRetries

/-- State of an `LLMClient` instance; the progress callback, the pipeline
handle and the stored config only feed the capability invocation, which is
injected as the `gen` parameter of the operations. -/
structure LLMClient where
  isModelLoaded : Bool
  conversationHistory : List Turn

/-- The method `generateResponse(userMessage)`.  A `none` result models the
thrown `Model not loaded` error; otherwise the user turn is pushed, the
retry loop runs with `maxRetries = 3`, and the assistant turn is pushed.
The invocation trace of the retry loop is returned alongside. -/
def LLMClient.generateResponse (client : LLMClient)
    (gen : Nat → String → ℚ → Except Unit String) (userMessage : String) (r : Fin 5) :
    Option String × List (ℚ × Bool) × LLMClient :=
  if client.isModelLoaded = false then (none, [], client)
  else
    let hist1 := client.conversationHistory ++ [⟨Role.user, userMessage⟩]
    let result := generateWithRetry gen hist1 userMessage 3 r
    (some result.1, result.2,
      { client with conversationHistory := hist1 ++ [⟨Role.assistant, result.1⟩] })

/-- The method `getHistory()` (the JS spread copy of a pure value is the
value itself). -/
def LLMClient.getHistory (client : LLMClient) : List Turn := client.conversationHistory

/-- The method `clearHistory()`. -/
def LLMClient.clearHistory (client : LLMClient) : LLMClient :=
  { client with conversationHistory := [] }

/-- The user utterance named in the overlap-rejection example of the spec. -/
def exMsg : String := "I have five years of experience in backend systems"

/-- A candidate response that repeats every word of `exMsg` longer than 4
characters (years, experience, backend, systems) and satisfies the other
three validation criteria. -/
def exResp : String := "What challenges did those years of backend systems experience bring?"

/-- Build k copies of a word. -/
def repWords (w : String) : Nat → List String
  | 0 => []
  | k + 1 => w :: repWords w k

/-- A 90-word utterance: 63 qualifying words (longer than 4 characters)
followed by 27 short words. -/
def exMsg90 : String := String.intercalate " " (repWords "aaaaa" 63 ++ repWords "bb" 27)

/-- A candidate response sharing the qualifying word of `exMsg90` and
passing every other gate; the double product 90 * 0.7 rounds below 63, so
the overlap 63 is rejected although it does not exceed the exact rational
bound 0.7 * 90. -/
def exResp90 : String := "does aaaaa mean anything to you?"

/-- A capability stub that throws on attempt 0 and afterwards returns a
fixed text. -/
def genThrowFirst : Nat → String → ℚ → Except Unit String :=
  fun attempt _ _ => if attempt = 0 then Except.error () else Except.ok "ok text"

/-! ## Helper lemmas about the cache model -/

theorem any_key_eq_true_iff (l : List (String × String)) (k : String) :
    l.any (fun p => p.1 == k) = true ↔ k ∈ keysOf l := by
  simp only [List.any_eq_true, beq_iff_eq, keysOf, List.mem_map]

theorem any_key_eq_false_iff (l : List (String × String)) (k : String) :
    l.any (fun p => p.1 == k) = false ↔ k ∉ keysOf l := by
  rw [Bool.eq_false_iff, Ne, any_key_eq_true_iff]

theorem any_tail_eq_false {l : List (String × String)} {f : String × String → Bool}
    (h : l.any f = false) : l.tail.any f = false := by
  cases l with
  | nil => simp
  | cons a t => simp only [List.any_cons, Bool.or_eq_false_iff] at h; exact h.2

theorem mapSet_of_not_mem (l : List (String × String)) (k v : String)
    (h : l.any (fun p => p.1 == k) = false) : mapSet l k v = l ++ [(k, v)] := by
  simp [mapSet, h]

theorem keysOf_mapSet_of_mem (l : List (String × String)) (k v : String)
    (h : l.any (fun p => p.1 == k) = true) : keysOf (mapSet l k v) = keysOf l := by
  simp only [mapSet, h, if_true, keysOf, List.map_map]
  refine List.map_congr_left ?_
  intro p _
  by_cases hp : (p.1 == k) = true
  · simp only [Function.comp_apply, hp, if_true]
    exact (beq_iff_eq.mp hp).symm
  · simp only [Function.comp_apply]
    rw [if_neg hp]

theorem length_mapSet_of_mem (l : List (String × String)) (k v : String)
    (h : l.any (fun p => p.1 == k) = true) : (mapSet l k v).length = l.length := by
  simp [mapSet, h]

theorem keysOf_append (l₁ l₂ : List (String × String)) :
    keysOf (l₁ ++ l₂) = keysOf l₁ ++ keysOf l₂ := List.map_append _ _ _

theorem keysOf_tail (l : List (String × String)) : keysOf l.tail = (keysOf l).tail := by
  cases l <;> rfl

theorem set_maxSize (c : CacheManager) (k v : String) : (c.set k v).maxSize = c.maxSize := rfl

theorem set_cache_of_mem (c : CacheManager) (key value : String)
    (h : c.cache.any (fun p => p.1 == CacheManager.hash key) = true) :
    (c.set key value).cache
      = c.cache.map (fun p =>
          if p.1 == CacheManager.hash key then (CacheManager.hash key, value) else p) := by
  simp [CacheManager.set, h, mapSet]

theorem set_keys_nodup (c : CacheManager) (k v : String)
    (hnd : (keysOf c.cache).Nodup) : (keysOf (c.set k v).cache).Nodup := by
  by_cases hmem : c.cache.any (fun p => p.1 == CacheManager.hash k) = true
  · have h1 : (c.set k v).cache = mapSet c.cache (CacheManager.hash k) v := by
      simp [CacheManager.set, hmem]
    rw [h1, keysOf_mapSet_of_mem _ _ _ hmem]
    exact hnd
  · have hff : c.cache.any (fun p => p.1 == CacheManager.hash k) = false :=
      Bool.eq_false_iff.mpr hmem
    have hnotin : CacheManager.hash k ∉ keysOf c.cache := (any_key_eq_false_iff _ _).mp hff
    by_cases hcap : c.maxSize ≤ c.cache.length
    · have h1 : (c.set k v).cache = c.cache.tail ++ [(CacheManager.hash k, v)] := by
        simp only [CacheManager.set, if_pos (And.intro hcap hff)]
        exact mapSet_of_not_mem _ _ _ (any_tail_eq_false hff)
      rw [h1, keysOf_append]
      rw [List.nodup_append]
      refine ⟨?_, ?_, ?_⟩
      · rw [keysOf_tail]; exact (List.tail_sublist _).nodup hnd
      · simp [keysOf]
      · intro a ha hb
        simp only [keysOf, List.map_cons, List.map_nil, List.mem_singleton] at hb
        subst hb
        rw [keysOf_tail] at ha
        exact hnotin ((List.tail_sublist _).subset ha)
    · have h1 : (c.set k v).cache = c.cache ++ [(CacheManager.hash k, v)] := by
        have hcond : ¬ (c.maxSize ≤ c.cache.length ∧
            (c.cache.any fun p => p.1 == CacheManager.hash k) = false) := by
          intro hc; exact hcap hc.1
        simp only [CacheManager.set]
        rw [if_neg hcond]
        exact mapSet_of_not_mem _ _ _ hff
      rw [h1, keysOf_append, List.nodup_append]
      refine ⟨hnd, by simp [keysOf], ?_⟩
      intro a ha hb
      simp only [keysOf, List.map_cons, List.map_nil, List.mem_singleton] at hb
      subst hb
      exact hnotin ha

theorem set_length_le (c : CacheManager) (k v : String) (hmax : 1 ≤ c.maxSize)
    (hlen : c.cache.length ≤ c.maxSize) : (c.set k v).cache.length ≤ c.maxSize := by
  by_cases hmem : c.cache.any (fun p => p.1 == CacheManager.hash k) = true
  · have h1 : (c.set k v).cache = mapSet c.cache (CacheManager.hash k) v := by
      simp [CacheManager.set, hmem]
    rw [h1, length_mapSet_of_mem _ _ _ hmem]
    exact hlen
  · have hff : c.cache.any (fun p => p.1 == CacheManager.hash k) = false :=
      Bool.eq_false_iff.mpr hmem
    by_cases hcap : c.maxSize ≤ c.cache.length
    · have h1 : (c.set k v).cache = c.cache.tail ++ [(CacheManager.hash k, v)] := by
        simp only [CacheManager.set, if_pos (And.intro hcap hff)]
        exact mapSet_of_not_mem _ _ _ (any_tail_eq_false hff)
      rw [h1]
      simp only [List.length_append, List.length_tail, List.length_cons, List.length_nil]
      omega
    · have h1 : (c.set k v).cache = c.cache ++ [(CacheManager.hash k, v)] := by
        have hcond : ¬ (c.maxSize ≤ c.cache.length ∧
            (c.cache.any fun p => p.1 == CacheManager.hash k) = false) := by
          intro hc; exact hcap hc.1
        simp only [CacheManager.set]
        rw [if_neg hcond]
        exact mapSet_of_not_mem _ _ _ hff
      rw [h1]
      simp only [List.length_append, List.length_cons, List.length_nil]
      omega

theorem runSets_maxSize (ops : List (String × String)) :
    ∀ c : CacheManager, (c.runSets ops).maxSize = c.maxSize := by
  induction ops with
  | nil => intro c; rfl
  | cons hd tl ih =>
    intro c
    obtain ⟨k, v⟩ := hd
    rw [CacheManager.runSets, ih, set_maxSize]

theorem runSets_keys_nodup (ops : List (String × String)) :
    ∀ c : CacheManager, (keysOf c.cache).Nodup → (keysOf (c.runSets ops).cache).Nodup := by
  induction ops with
  | nil => intro c h; exact h
  | cons hd tl ih =>
    intro c h
    obtain ⟨k, v⟩ := hd
    exact ih _ (set_keys_nodup c k v h)

theorem runSets_length_le (ops : List (String × String)) :
    ∀ c : CacheManager, 1 ≤ c.maxSize → c.cache.length ≤ c.maxSize →
      (c.runSets ops).cache.length ≤ (c.runSets ops).maxSize := by
  induction ops with
  | nil => intro c _ h; exact h
  | cons hd tl ih =>
    intro c hmax hlen
    obtain ⟨k, v⟩ := hd
    rw [CacheManager.runSets]
    exact ih _ (by rw [set_maxSize]; exact hmax) (set_length_le c k v hmax hlen)

theorem foldl_mapSet_eq_append (l : List (String × String)) :
    ∀ acc : List (String × String), (keysOf acc ++ keysOf l).Nodup →
      l.foldl (fun m p => mapSet m p.1 p.2) acc = acc ++ l := by
  induction l with
  | nil => intro acc _; simp
  | cons hd tl ih =>
    intro acc h
    obtain ⟨k, v⟩ := hd
    have hk : k ∉ keysOf acc := by
      rw [List.nodup_append] at h
      intro hmem
      exact h.2.2 hmem (by simp [keysOf])
    have hany : acc.any (fun p => p.1 == k) = false := (any_key_eq_false_iff _ _).mpr hk
    rw [List.foldl_cons]
    show List.foldl (fun m p => mapSet m p.1 p.2) (mapSet acc k v) tl = _
    rw [mapSet_of_not_mem _ _ _ hany]
    rw [ih (acc ++ [(k, v)]) ?_]
    · simp
    · rw [keysOf_append]
      simpa [keysOf, List.append_assoc] using h

theorem get_fst (c : CacheManager) (key : String) :
    (c.get key).1 = c.cache.lookup (CacheManager.hash key) := by
  simp only [CacheManager.get]
  cases h : c.cache.lookup (CacheManager.hash key) <;> simp [h]

/-! ## Claim C2: LRU eviction and promotion on read -/

/-- C2: when `set` inserts a new key while the cache is at capacity the
evicted entry is the least-recently-used one (the first in iteration
order), and a `get` hit promotes its entry to the most-recently-used
position; concretely, with maxSize 2, after set A, set B, set C the key A
is absent and B and C are present, and after set A, set B, get A, set C
the key B is absent and A is present. -/
theorem C2_lru_eviction :
    (∀ (c : CacheManager) (k v : String),
        c.maxSize ≤ c.cache.length → c.has k = false →
        (c.set k v).cache = c.cache.tail ++ [(CacheManager.hash k, v)]) ∧
    ((((CacheManager.new 2).set "A" "1").set "B" "2").set "C" "3").has "A" = false ∧
    ((((CacheManager.new 2).set "A" "1").set "B" "2").set "C" "3").has "B" = true ∧
    ((((CacheManager.new 2).set "A" "1").set "B" "2").set "C" "3").has "C" = true ∧
    (((((CacheManager.new 2).set "A" "1").set "B" "2").get "A").2.set "C" "3").has "B" = false ∧
    (((((CacheManager.new 2).set "A" "1").set "B" "2").get "A").2.set "C" "3").has "A" = true := by
  refine ⟨?_, by decide, by decide, by decide, by decide, by decide⟩
  intro c k v hlen hhas
  have hany : c.cache.any (fun p => p.1 == CacheManager.hash k) = false := hhas
  simp only [CacheManager.set, if_pos (And.intro hlen hany)]
  exact mapSet_of_not_mem _ _ _ (any_tail_eq_false hany)

/-- Witness for C2: a concrete full cache with a fresh key, instantiating
the universally quantified eviction clause. -/
theorem C2_lru_eviction_witness :
    ((CacheManager.new 1).set "x" "1").maxSize ≤ ((CacheManager.new 1).set "x" "1").cache.length ∧
    ((CacheManager.new 1).set "x" "1").has "y" = false ∧
    (((CacheManager.new 1).set "x" "1").set "y" "2").cache
      = ((CacheManager.new 1).set "x" "1").cache.tail ++ [(CacheManager.hash "y", "2")] :=
  ⟨by decide, by decide, C2_lru_eviction.1 _ "y" "2" (by decide) (by decide)⟩

/-! ## Claim C3: capacity invariant -/

/-- C3 counterexample: with configured maximum 0, a single `set` on a fresh
cache stores one entry, which exceeds the configured maximum, so the
invariant does not hold for every constructible maximum size. -/
theorem C3_capacity_counterexample :
    ((CacheManager.new 0).set "a" "1").cache.length = 1 ∧ ¬ (1 ≤ 0) :=
  ⟨by decide, by decide⟩

/-- C3 amended: for every cache constructed with maximum size at least 1
and every finite sequence of `set` calls, after each call the number of
stored entries is at most the configured maximum and normalized keys are
pairwise distinct (at most one entry per normalized key). -/
theorem C3_capacity_amended (maxSize : Nat) (hmax : 1 ≤ maxSize)
    (ops : List (String × String)) :
    ((CacheManager.new maxSize).runSets ops).cache.length ≤ maxSize ∧
    (keysOf ((CacheManager.new maxSize).runSets ops).cache).Nodup := by
  constructor
  · have h := runSets_length_le ops (CacheManager.new maxSize) hmax
      (by simp [CacheManager.new])
    rwa [runSets_maxSize] at h
  · exact runSets_keys_nodup ops _ (by simp [keysOf, CacheManager.new])

/-- Witness for C3 amended: maximum size 2 and three concrete insertions. -/
theorem C3_capacity_amended_witness :
    1 ≤ 2 ∧
    (((CacheManager.new 2).runSets [("a", "1"), ("b", "2"), ("c", "3")]).cache.length ≤ 2 ∧
      (keysOf ((CacheManager.new 2).runSets [("a", "1"), ("b", "2"), ("c", "3")]).cache).Nodup) :=
  ⟨by decide, C3_capacity_amended 2 (by decide) [("a", "1"), ("b", "2"), ("c", "3")]⟩

/-! ## Claim C4: update of an existing key -/

/-- C4 counterexample: with maxSize 2, after set A, set B, then the update
set A (which per the claim moves A to the most-recently-used position, so
that the next eviction would remove B), inserting C evicts A and keeps B:
JS `Map.set` does not move an existing key. -/
theorem C4_update_counterexample :
    (((((CacheManager.new 2).set "A" "1").set "B" "2").set "A" "3").set "C" "4").has "A"
        = false ∧
    (((((CacheManager.new 2).set "A" "1").set "B" "2").set "A" "3").set "C" "4").has "B"
        = true :=
  ⟨by decide, by decide⟩

/-- C4 amended: `set` on a raw key whose normalized form is already present
updates that entry's value in place, keeping the entry at its existing
position in the recency order (it is not promoted to most-recently-used),
and never triggers an eviction: the key sequence and the entry count are
unchanged. -/
theorem C4_update_amended (c : CacheManager) (k v : String) (h : c.has k = true) :
    (c.set k v).cache
        = c.cache.map (fun p =>
            if p.1 == CacheManager.hash k then (CacheManager.hash k, v) else p) ∧
    (c.set k v).cache.length = c.cache.length ∧
    keysOf (c.set k v).cache = keysOf c.cache := by
  have hany : c.cache.any (fun p => p.1 == CacheManager.hash k) = true := h
  have h1 : (c.set k v).cache = mapSet c.cache (CacheManager.hash k) v := by
    simp [CacheManager.set, hany]
  refine ⟨?_, ?_, ?_⟩
  · rw [h1]; simp [mapSet, hany]
  · rw [h1, length_mapSet_of_mem _ _ _ hany]
  · rw [h1, keysOf_mapSet_of_mem _ _ _ hany]

/-- Witness for C4 amended: updating the one existing key of a concrete
cache. -/
theorem C4_update_amended_witness :
    ((CacheManager.new 2).set "A" "1").has "A" = true ∧
    ((((CacheManager.new 2).set "A" "1").set "A" "9").cache
        = ((CacheManager.new 2).set "A" "1").cache.map (fun p =>
            if p.1 == CacheManager.hash "A" then (CacheManager.hash "A", "9") else p) ∧
      (((CacheManager.new 2).set "A" "1").set "A" "9").cache.length
        = ((CacheManager.new 2).set "A" "1").cache.length ∧
      keysOf (((CacheManager.new 2).set "A" "1").set "A" "9").cache
        = keysOf ((CacheManager.new 2).set "A" "1").cache) :=
  ⟨by decide, C4_update_amended _ "A" "9" (by decide)⟩

/-! ## Claim C7: persistence round-trip -/

/-- C7: after any sequence of `set` calls, persisting the snapshot and
restoring it into a fresh cache reproduces the ordered entry list exactly,
hence the same stats size and the same `get` result for every raw key. -/
theorem C7_persistence_roundtrip (maxSize : Nat) (ops : List (String × String)) :
    ((CacheManager.new maxSize).restore true
        (((CacheManager.new maxSize).runSets ops).persist true none).2).cache
      = ((CacheManager.new maxSize).runSets ops).cache ∧
    ((CacheManager.new maxSize).restore true
        (((CacheManager.new maxSize).runSets ops).persist true none).2).statsSize
      = ((CacheManager.new maxSize).runSets ops).statsSize ∧
    ∀ key : String,
      (((CacheManager.new maxSize).restore true
          (((CacheManager.new maxSize).runSets ops).persist true none).2).get key).1
        = (((CacheManager.new maxSize).runSets ops).get key).1 := by
  have hnd : (keysOf ((CacheManager.new maxSize).runSets ops).cache).Nodup :=
    runSets_keys_nodup ops _ (by simp [keysOf, CacheManager.new])
  have hcache : ((CacheManager.new maxSize).restore true
      (((CacheManager.new maxSize).runSets ops).persist true none).2).cache
      = ((CacheManager.new maxSize).runSets ops).cache := by
    show List.foldl (fun m p => mapSet m p.1 p.2) []
        ((CacheManager.new maxSize).runSets ops).cache
      = ((CacheManager.new maxSize).runSets ops).cache
    have h := foldl_mapSet_eq_append ((CacheManager.new maxSize).runSets ops).cache []
      (by simpa [keysOf] using hnd)
    simpa using h
  refine ⟨hcache, ?_, ?_⟩
  · simp [CacheManager.statsSize, hcache]
  · intro key
    rw [get_fst, get_fst, hcache]

/-! ## Claim C8: persistence failure behavior -/

/-- C8 counterexample: restoring a malformed blob into a non-empty cache
does not throw but leaves the cache unchanged and non-empty, where the
claim states the cache is left empty for every cache state. -/
theorem C8_persistence_counterexample :
    (((CacheManager.new 2).set "A" "1").restore true (some Blob.malformed)).cache
      = ((CacheManager.new 2).set "A" "1").cache ∧
    ((CacheManager.new 2).set "A" "1").cache ≠ [] :=
  ⟨rfl, by decide⟩

/-- C8 amended: persistence failures never propagate: a failed restore
(storage throwing, absent slot, or malformed blob) returns normally and
leaves the cache unchanged — hence empty exactly on the fresh cache the
application restores into; a failed persist returns normally and leaves
both the cache contents and the stored slot unchanged. -/
theorem C8_persistence_amended :
    (∀ (c : CacheManager) (slot : Option Blob), c.restore false slot = c) ∧
    (∀ c : CacheManager, c.restore true (some Blob.malformed) = c) ∧
    (∀ c : CacheManager, c.restore true none = c) ∧
    (∀ maxSize : Nat,
      ((CacheManager.new maxSize).restore true (some Blob.malformed)).cache = []) ∧
    (∀ (c : CacheManager) (storeOk : Bool) (slot : Option Blob),
      (c.persist storeOk slot).1 = c) ∧
    (∀ (c : CacheManager) (slot : Option Blob), (c.persist false slot).2 = slot) := by
  refine ⟨fun c slot => rfl, fun c => rfl, fun c => rfl, fun m => rfl, ?_, fun c slot => rfl⟩
  intro c storeOk slot
  cases storeOk <;> rfl

/-! ## Helper lemmas about the generation pipeline -/

theorem dropLeadingWs_sublist (l : List Char) : (dropLeadingWs l).Sublist l :=
  List.dropWhile_sublist _

theorem dropTrailingWs_sublist (l : List Char) : (dropTrailingWs l).Sublist l := by
  have h : (List.dropWhile isWs l.reverse).Sublist l.reverse := List.dropWhile_sublist _
  have h2 := h.reverse
  simpa [dropTrailingWs] using h2

theorem stripRoleLabel_sublist (l : List Char) : (stripRoleLabel l).Sublist l := by
  unfold stripRoleLabel
  cases h : roleLabels.find? (fun p => p.data.isPrefixOf (l.map Char.toLower)) with
  | none => exact List.Sublist.refl l
  | some p => exact (dropLeadingWs_sublist _).trans (List.drop_sublist _ _)

theorem stripLeadingQuote_sublist (l : List Char) : (stripLeadingQuote l).Sublist l := by
  unfold stripLeadingQuote
  cases l with
  | nil => exact List.Sublist.refl _
  | cons c rest =>
    show (if c ∈ quoteChars then dropLeadingWs rest else c :: rest).Sublist (c :: rest)
    by_cases h : c ∈ quoteChars
    · rw [if_pos h]
      exact (dropLeadingWs_sublist rest).trans (List.sublist_cons_self c rest)
    · rw [if_neg h]

theorem stripTrailingQuote_sublist (l : List Char) : (stripTrailingQuote l).Sublist l := by
  unfold stripTrailingQuote
  cases hg : l.getLast? with
  | none => exact List.Sublist.refl _
  | some c =>
    show (if c ∈ quoteChars then dropTrailingWs l.dropLast else l).Sublist l
    by_cases h : c ∈ quoteChars
    · rw [if_pos h]
      exact (dropTrailingWs_sublist _).trans (List.dropLast_sublist _)
    · rw [if_neg h]

theorem truncateIncomplete_sublist (l : List Char) : (truncateIncomplete l).Sublist l := by
  unfold truncateIncomplete
  split_ifs with h
  · cases hi : lastIndexOf l '.' with
    | none => exact List.Sublist.refl _
    | some i =>
      show (if l.length < 2 * i then List.take (i + 1) l else l).Sublist l
      split_ifs with h2
      · exact List.take_sublist _ _
      · exact List.Sublist.refl _
  · exact List.Sublist.refl _

theorem truncAfterLastQ_sublist (l : List Char) : (truncAfterLastQ l).Sublist l := by
  unfold truncAfterLastQ
  split_ifs with h
  · cases hi : lastIndexOf l '?' with
    | none => exact List.Sublist.refl _
    | some i => exact List.take_sublist _ _
  · exact List.Sublist.refl _

theorem jsTrim_data_sublist (s : String) : (jsTrim s).data.Sublist s.data := by
  show (dropTrailingWs (dropLeadingWs s.data)).Sublist s.data
  exact (dropTrailingWs_sublist _).trans (dropLeadingWs_sublist _)

theorem cleanResponse_data_sublist (s : String) : (cleanResponse s).data.Sublist s.data := by
  show (truncAfterLastQ (truncateIncomplete (dropTrailingWs (dropLeadingWs
      (stripTrailingQuote (stripLeadingQuote (stripRoleLabel s.data))))))).Sublist s.data
  exact ((((((truncAfterLastQ_sublist _).trans (truncateIncomplete_sublist _)).trans
    (dropTrailingWs_sublist _)).trans (dropLeadingWs_sublist _)).trans
    (stripTrailingQuote_sublist _)).trans (stripLeadingQuote_sublist _)).trans
    (stripRoleLabel_sublist _)

theorem contains_char_false_iff (l : List Char) (c : Char) :
    l.contains c = false ↔ c ∉ l := by
  rw [Bool.eq_false_iff]
  constructor
  · intro h hc
    exact h (List.elem_iff.mpr hc)
  · intro h hc
    exact h (List.elem_iff.mp hc)

theorem no_q_of_sublist {l₁ l₂ : List Char} (hsub : l₁.Sublist l₂)
    (h : l₂.contains '?' = false) : l₁.contains '?' = false := by
  rw [contains_char_false_iff] at h ⊢
  intro hc
  exact h (hsub.subset hc)

theorem cleanResponse_no_q (s : String) (h : s.data.contains '?' = false) :
    (cleanResponse (jsTrim s)).data.contains '?' = false :=
  no_q_of_sublist ((cleanResponse_data_sublist _).trans (jsTrim_data_sublist s)) h

theorem validate_false_of_no_q (response userMessage : String)
    (h : response.data.contains '?' = false) :
    validateResponse response userMessage = false := by
  simp only [validateResponse]
  split_ifs <;> rfl

theorem getFallbackQuestion_spec (u : String) (r : Fin 5) :
    getFallbackQuestion u r ∈ fallbackPool ∧
    (getFallbackQuestion u r).data.getLast? = some '?' ∧
    getFallbackQuestion u r ≠ "" := by
  simp only [getFallbackQuestion]
  split_ifs <;> try exact ⟨by decide, by decide, by decide⟩
  fin_cases r <;> exact ⟨by decide, by decide, by decide⟩

theorem attemptLoop_all_no_q (gen : Nat → String → ℚ → Except Unit String)
    (prompt userMessage : String) (r : Fin 5)
    (hgen : ∀ a t, ∃ s, gen a prompt t = Except.ok s ∧ s.data.contains '?' = false) :
    ∀ (remaining attempt : Nat) (temperature : ℚ),
      (attemptLoop gen prompt userMessage r attempt temperature remaining).1
          = getFallbackQuestion userMessage r ∧
      (attemptLoop gen prompt userMessage r attempt temperature remaining).2.length
          = remaining := by
  intro remaining
  induction remaining with
  | zero => intro attempt temperature; exact ⟨rfl, rfl⟩
  | succ n ih =>
    intro attempt temperature
    obtain ⟨s, hs, hq⟩ := hgen attempt temperature
    have hval : validateResponse (cleanResponse (jsTrim s)) userMessage = false :=
      validate_false_of_no_q _ _ (cleanResponse_no_q s hq)
    have hrec := ih (attempt + 1) (temperature + 3 / 20)
    simp [attemptLoop, hs, hval, hrec.1, hrec.2]

theorem attemptLoop_temperature_law (gen : Nat → String → ℚ → Except Unit String)
    (prompt userMessage : String) (r : Fin 5) :
    ∀ (remaining attempt : Nat) (t : ℚ) (k : Nat) (e : ℚ × Bool),
      (attemptLoop gen prompt userMessage r attempt t remaining).2.get? k = some e →
      e.1 = t + (3 / 20) *
        (((attemptLoop gen prompt userMessage r attempt t remaining).2.take k).countP
            Prod.snd : ℚ) := by
  intro remaining
  induction remaining with
  | zero =>
    intro attempt t k e h
    simp [attemptLoop] at h
  | succ n ih =>
    intro attempt t k e h
    cases hg : gen attempt prompt t with
    | error u =>
      simp only [attemptLoop, hg] at h ⊢
      cases k with
      | zero =>
        simp only [List.get?] at h
        cases h
        simp
      | succ k' =>
        simp only [List.get?] at h
        have := ih (attempt + 1) t k' e h
        simpa [List.countP_cons] using this
    | ok s =>
      cases hv : validateResponse (cleanResponse (jsTrim s)) userMessage with
      | true =>
        simp only [attemptLoop, hg, hv, if_true] at h ⊢
        cases k with
        | zero =>
          simp only [List.get?] at h
          cases h
          simp
        | succ k' =>
          simp only [List.get?] at h
          cases h
      | false =>
        simp only [attemptLoop, hg, hv] at h ⊢
        cases k with
        | zero =>
          simp only [List.get?] at h
          cases h
          simp
        | succ k' =>
          simp only [List.get?] at h
          have hrec := ih (attempt + 1) (t + 3 / 20) k' e h
          rw [hrec]
          simp only [List.take, List.countP_cons]
          push_cast
          ring

/-! ## Claim C1: overlap-rejection criterion -/

/-- C1 counterexample: for the user input of the spec example, a candidate
that repeats every word of the input longer than 4 characters (100 percent
of the qualifying words, so at least 70 percent) is accepted by the
validation gate, although the criterion as the claim words it (fraction of
the qualifying words of the input) would reject it: the code divides by
the total word count of the input, not by its qualifying word count. -/
theorem C1_overlap_counterexample :
    specOverlapRejects exResp exMsg = true ∧ validateResponse exResp exMsg = true :=
  ⟨by decide, by decide⟩

set_option maxRecDepth 20000 in
/-- C1 amended: the validation gate accepts exactly when no denylist
phrase occurs in the lowercased response, a question mark is present, the
length lies within 10..300, and the number of words of the utterance
longer than 4 characters that also occur among the response's words does
not exceed the IEEE-754 double product of the TOTAL space-separated word
count of the utterance with 0.7 (compared on 2^53-scaled integers) — the
denominator is the total word count, not the qualifying count; in
particular, for the spec's example input a candidate repeating all four
qualifying words is accepted, while on a 90-word utterance an overlap of
exactly 63 words is rejected even though it does not exceed the exact
rational bound 0.7 * 90, because the double product rounds below 63. -/
theorem C1_overlap_amended :
    (∀ response userMessage : String,
      validateResponse response userMessage = true ↔
        (badPhrases.any (fun phrase => containsSub (jsToLower response) phrase) = false ∧
         response.data.contains '?' = true ∧
         10 ≤ response.length ∧ response.length ≤ 300 ∧
         overlapCount response userMessage * 2 ^ 53
           ≤ roundedProd07 (jsSplit (jsToLower userMessage) ' ').length)) ∧
    validateResponse exResp exMsg = true ∧
    validateResponse exResp90 exMsg90 = false ∧
    overlapCount exResp90 exMsg90 = 63 ∧
    (jsSplit (jsToLower exMsg90) ' ').length = 90 ∧
    10 * overlapCount exResp90 exMsg90 ≤ 7 * (jsSplit (jsToLower exMsg90) ' ').length := by
  refine ⟨?_, by decide, by decide, by decide, by decide, by decide⟩
  intro response userMessage
  simp only [validateResponse]
  split_ifs with h1 h2 h3 h4
  · simp [h1]
  · constructor
    · intro hff; simp at hff
    · rintro ⟨-, hq, -⟩
      rw [h2] at hq
      simp at hq
  · constructor
    · intro hff; simp at hff
    · rintro ⟨-, -, hl, hr2, -⟩
      exact absurd h3 (by omega)
  · constructor
    · intro hff; simp at hff
    · rintro ⟨-, -, -, -, hov⟩
      exact absurd h4 (not_lt.mpr hov)
  · refine ⟨fun _ => ⟨Bool.eq_false_iff.mpr h1, ?_, ?_, ?_, ?_⟩, fun _ => rfl⟩
    · cases hb : response.data.contains '?' with
      | false => exact absurd hb h2
      | true => rfl
    · omega
    · omega
    · exact not_lt.mp h4

/-! ## Claim C5: retry exhaustion yields a fallback question -/

/-- C5: if the generation capability on every invocation returns text
lacking a question mark, then `generateResponse` with the model loaded
invokes the capability exactly maxRetries = 3 times, surfaces no error,
and returns the fallback question: a non-empty member of the fallback pool
ending in a question mark. -/
theorem C5_retry_exhaustion_fallback (client : LLMClient)
    (gen : Nat → String → ℚ → Except Unit String) (u : String) (r : Fin 5)
    (hload : client.isModelLoaded = true)
    (hgen : ∀ (a : Nat) (p : String) (t : ℚ),
      ∃ s, gen a p t = Except.ok s ∧ s.data.contains '?' = false) :
    (client.generateResponse gen u r).1 = some (getFallbackQuestion u r) ∧
    (client.generateResponse gen u r).2.1.length = 3 ∧
    getFallbackQuestion u r ∈ fallbackPool ∧
    (getFallbackQuestion u r).data.getLast? = some '?' ∧
    getFallbackQuestion u r ≠ "" := by
  have hmain := attemptLoop_all_no_q gen
    (buildContextualPrompt (client.conversationHistory ++ [⟨Role.user, u⟩]) u) u r
    (fun a t => hgen a _ t) 3 0 (4 / 5)
  have hfb := getFallbackQuestion_spec u r
  refine ⟨?_, ?_, hfb.1, hfb.2.1, hfb.2.2⟩ <;>
  · simp only [LLMClient.generateResponse, generateWithRetry]
    rw [if_neg (by simp [hload])]
    simp [hmain.1, hmain.2]

/-- Witness for C5: a loaded client and a capability that always returns a
fixed question-mark-free text. -/
theorem C5_retry_exhaustion_fallback_witness :
    (LLMClient.mk true []).isModelLoaded = true ∧
    (((LLMClient.mk true []).generateResponse
        (fun _ _ _ => (Except.ok "the answer is blue" : Except Unit String))
        "hello there" 0).1
      = some (getFallbackQuestion "hello there" 0) ∧
    ((LLMClient.mk true []).generateResponse
        (fun _ _ _ => (Except.ok "the answer is blue" : Except Unit String))
        "hello there" 0).2.1.length = 3 ∧
    getFallbackQuestion "hello there" 0 ∈ fallbackPool ∧
    (getFallbackQuestion "hello there" 0).data.getLast? = some '?' ∧
    getFallbackQuestion "hello there" 0 ≠ "") :=
  ⟨rfl, C5_retry_exhaustion_fallback (LLMClient.mk true [])
    (fun _ _ _ => (Except.ok "the answer is blue" : Except Unit String)) "hello there" 0 rfl
    (fun _ _ _ => ⟨"the answer is blue", rfl, rfl⟩)⟩

/-! ## Claim C6: temperature schedule across attempts -/

/-- C6 counterexample: with a capability that throws on attempt 0, the
temperature passed on attempt 1 is still 0.8, not 0.8 + 0.15: the source
increments the temperature only after a returned candidate fails
validation, and the increment line is skipped when the invocation throws. -/
theorem C6_temperature_counterexample :
    ((generateWithRetry genThrowFirst [] "hi" 3 0).2.map Prod.fst).get? 1 = some (4 / 5) ∧
    (4 / 5 : ℚ) ≠ 4 / 5 + 3 / 20 := by
  constructor
  · rfl
  · norm_num

/-- C6 amended: the temperature passed to the capability on invocation k
equals 0.8 plus 0.15 times the number of earlier invocations whose
candidate was returned (and hence failed validation, or the loop would
have ended); an invocation on which the capability throws consumes one of
the maxRetries attempts but leaves the temperature unchanged. -/
theorem C6_temperature_schedule_amended (gen : Nat → String → ℚ → Except Unit String)
    (history : List Turn) (u : String) (maxRetries : Nat) (r : Fin 5)
    (k : Nat) (e : ℚ × Bool)
    (h : (generateWithRetry gen history u maxRetries r).2.get? k = some e) :
    e.1 = 4 / 5 + (3 / 20) *
      (((generateWithRetry gen history u maxRetries r).2.take k).countP Prod.snd : ℚ) :=
  attemptLoop_temperature_law gen (buildContextualPrompt history u) u r maxRetries 0 (4 / 5)
    k e h

/-- Witness for C6 amended: the throwing-then-returning stub at invocation
index 1, where no earlier candidate was returned, so the temperature is
still the base 0.8. -/
theorem C6_temperature_schedule_amended_witness :
    ((generateWithRetry genThrowFirst [] "hi" 3 0).2.get? 1 = some (4 / 5, true)) ∧
    ((4 / 5 : ℚ), true).1 = 4 / 5 + (3 / 20) *
      (((generateWithRetry genThrowFirst [] "hi" 3 0).2.take 1).countP Prod.snd : ℚ) :=
  ⟨by rfl, C6_temperature_schedule_amended genThrowFirst [] "hi" 3 0 1 (4 / 5, true)
    (by rfl)⟩

/-! ## Claim C9: history append ordering -/

/-- C9: one successful generate call appends exactly two entries to the
history, in order the user turn holding the utterance then the assistant
turn holding the returned response, and changes nothing else. -/
theorem C9_history_append (client : LLMClient)
    (gen : Nat → String → ℚ → Except Unit String) (u : String) (r : Fin 5)
    (hload : client.isModelLoaded = true) :
    ∃ response : String,
      (client.generateResponse gen u r).1 = some response ∧
      ((client.generateResponse gen u r).2.2).getHistory
        = client.getHistory ++ [⟨Role.user, u⟩, ⟨Role.assistant, response⟩] := by
  refine ⟨(generateWithRetry gen (client.conversationHistory ++ [⟨Role.user, u⟩]) u 3 r).1,
    ?_, ?_⟩
  · simp [LLMClient.generateResponse, hload]
  · simp [LLMClient.generateResponse, LLMClient.getHistory, hload, List.append_assoc]

/-- Witness for C9: a loaded client with one prior turn and a capability
returning a fixed valid question. -/
theorem C9_history_append_witness :
    (LLMClient.mk true [Turn.mk Role.user "earlier"]).isModelLoaded = true ∧
    ∃ response : String,
      ((LLMClient.mk true [Turn.mk Role.user "earlier"]).generateResponse
          (fun _ _ _ => (Except.ok "Why?" : Except Unit String)) "hi" 0).1 = some response ∧
      (((LLMClient.mk true [Turn.mk Role.user "earlier"]).generateResponse
          (fun _ _ _ => (Except.ok "Why?" : Except Unit String)) "hi" 0).2.2).getHistory
        = (LLMClient.mk true [Turn.mk Role.user "earlier"]).getHistory
            ++ [⟨Role.user, "hi"⟩, ⟨Role.assistant, response⟩] :=
  ⟨rfl, C9_history_append (LLMClient.mk true [Turn.mk Role.user "earlier"])
    (fun _ _ _ => (Except.ok "Why?" : Except Unit String)) "hi" 0 rfl⟩

/-! ## Claim C10: precondition violation mutates nothing -/

/-- C10: calling generate while the model is not loaded throws the
precondition-violation error before any mutation: the result carries no
response text, no capability invocation happened, and the client state,
including the conversation history, is returned exactly as it was. -/
theorem C10_not_loaded_no_mutation (client : LLMClient)
    (gen : Nat → String → ℚ → Except Unit String) (u : String) (r : Fin 5)
    (hload : client.isModelLoaded = false) :
    client.generateResponse gen u r = (none, [], client) := by
  simp [LLMClient.generateResponse, hload]

/-- Witness for C10: a not-loaded client with non-empty history. -/
theorem C10_not_loaded_no_mutation_witness :
    (LLMClient.mk false [Turn.mk Role.user "x"]).isModelLoaded = false ∧
    (LLMClient.mk false [Turn.mk Role.user "x"]).generateResponse
        (fun _ _ _ => (Except.ok "y" : Except Unit String)) "z" 0
      = (none, [], LLMClient.mk false [Turn.mk Role.user "x"]) :=
  ⟨rfl, C10_not_loaded_no_mutation (LLMClient.mk false [Turn.mk Role.user "x"])
    (fun _ _ _ => (Except.ok "y" : Except Unit String)) "z" 0 rfl⟩
